import Mathlib

/-!
Shallow embedding of the Project_Todo_Manager core logic of the repository:
status derivation from actual dates, progress aggregation, hierarchy
assembly, patch-merge semantics, today-todo filtering, reordering,
order-index allocation and the Gantt timeline geometry.

Every definition is translated from the TypeScript source of the repository;
JavaScript value semantics (string truthiness, nullish coalescing,
`Math.round`) are made explicit.
-/

set_option autoImplicit false

/-- Lifecycle status enum, `TodoStatus` in `domain/entities`. -/
inductive TodoStatus where
  | NOT_STARTED
  | IN_PROGRESS
  | DONE
deriving DecidableEq, Repr

/-- A JavaScript `string | null | undefined` value, needed because the
patch-merge code distinguishes `undefined` (field not supplied) from
`null` (field explicitly cleared) from an actual string. -/
inductive StrVal where
  | undef
  | null
  | str (s : String)
deriving DecidableEq, Repr

/-- JavaScript `Boolean(v)` for a `string | null | undefined` value:
`undefined` and `null` are falsy, a string is truthy iff non-empty. -/
def StrVal.truthy : StrVal → Bool
  | .str s => s ≠ ""
  | _ => false

/-- DB columns hold `string | null`; reading them into JS collapses to an
optional string.  `toStrVal` injects a column value into `StrVal`
(`null` reads as `null`, which the repository immediately normalizes to
`undefined`; both are falsy so the distinction is irrelevant here). -/
def toStrVal : Option String → StrVal
  | none => .undef
  | some s => .str s

/-- `deriveStatusFromActual` (src/unnamed/part_000 lines 119-128 and the
server-side `domain/status`): `Boolean(actualEnd)` wins, then
`Boolean(actualStart)`, else NOT_STARTED. -/
def deriveStatusFromActual (actualStart actualEnd : StrVal) : TodoStatus :=
  if actualEnd.truthy then .DONE
  else if actualStart.truthy then .IN_PROGRESS
  else .NOT_STARTED

/-- `statusToProgressValue` (src/server/src/domain/progress.ts lines 3-12). -/
def statusToProgressValue : TodoStatus → ℚ
  | .DONE => 1
  | .IN_PROGRESS => 1/2
  | .NOT_STARTED => 0

/-- JavaScript `Math.round`: round to nearest, halves toward +infinity,
i.e. `⌊x + 1/2⌋`. -/
def jsRound (q : ℚ) : ℤ := ⌊q + 1/2⌋

/-- `calculateProgressFromStatuses` (progress.ts lines 14-21): 0 on the
empty list, else the rounded percentage of the average weight. -/
def calculateProgressFromStatuses (statuses : List TodoStatus) : ℤ :=
  if statuses = [] then 0
  else jsRound ((statuses.map statusToProgressValue).sum / statuses.length * 100)

/-- `progressFromStatus` (progress.ts lines 23-25). -/
def progressFromStatus (status : TodoStatus) : ℤ :=
  jsRound (statusToProgressValue status * 100)

/-- `combineProgress` (progress.ts lines 27-34): 0 on the empty list,
else the rounded arithmetic mean. -/
def combineProgress (values : List ℤ) : ℤ :=
  if values = [] then 0
  else jsRound ((values.sum : ℚ) / values.length)

/-- `deriveProgressFromStatuses` (projectService, progress chunk lines
93-98): own status only when childless, otherwise children only. -/
def deriveProgressFromStatuses (childStatuses : List TodoStatus) (ownStatus : TodoStatus) : ℤ :=
  if childStatuses = [] then progressFromStatus ownStatus
  else calculateProgressFromStatuses childStatuses

/-- Status weight doubled, to stay in integers (`DONE` = 2 halves,
`IN_PROGRESS` = 1 half, `NOT_STARTED` = 0). -/
def weight2 : TodoStatus → ℕ
  | .DONE => 2
  | .IN_PROGRESS => 1
  | .NOT_STARTED => 0

/-- Node models for the hierarchy read path (`projectService.getHierarchy`):
each node carries its own derived status and the statuses of its children.
The children of a task are todos, whose statuses are stored directly. -/
structure TaskT where
  status : TodoStatus
  todos : List TodoStatus
deriving DecidableEq, Repr

structure WorkT where
  status : TodoStatus
  tasks : List TaskT
deriving DecidableEq, Repr

structure PhaseT where
  status : TodoStatus
  works : List WorkT
deriving DecidableEq, Repr

/-- Task progress as computed in `getHierarchy`:
`deriveProgressFromStatuses(childTodos.map(t => t.status), task.status)`. -/
def taskProgress (t : TaskT) : ℤ :=
  deriveProgressFromStatuses t.todos t.status

/-- Work progress as computed in `getHierarchy`. -/
def workProgress (w : WorkT) : ℤ :=
  deriveProgressFromStatuses (w.tasks.map TaskT.status) w.status

/-- Phase progress as computed in `getHierarchy` and
`calculateProjectProgress` (both use the derived statuses of the works). -/
def phaseProgress (p : PhaseT) : ℤ :=
  deriveProgressFromStatuses (p.works.map WorkT.status) p.status

/-- Project progress, `calculateProjectProgress` (progress chunk lines
123-140): `combineProgress` over the phase progress values. -/
def projectProgress (phases : List PhaseT) : ℤ :=
  combineProgress (phases.map phaseProgress)

/-- A persisted planning row (phase, work or task) as stored in SQLite:
actual dates are `string | null` columns, and a possibly drifted status
column. -/
structure PlanRow where
  id : String
  title : String
  plannedStart : String
  plannedEnd : String
  actualStart : Option String
  actualEnd : Option String
  memo : Option String
  orderIndex : ℤ
  status : TodoStatus
deriving DecidableEq, Repr

/-- `withDerivedStatus` (hierarchyRepository.ts lines 19-30): replace the
stored status with the one derived from the stored actual dates (the
repository-level `normalizeActualValue` maps `null` to `undefined`, which
`toStrVal` reflects by sending `none` to `undef`). -/
def withDerivedStatus (item : PlanRow) : PlanRow :=
  { item with
    status := deriveStatusFromActual (toStrVal item.actualStart) (toStrVal item.actualEnd) }

/-- `listHierarchy` (hierarchyRepository.ts lines 33-52): phases, works
and tasks are returned with `withDerivedStatus` applied to every row. -/
def listHierarchyRows (phases works tasks : List PlanRow) :
    List PlanRow × List PlanRow × List PlanRow :=
  (phases.map withDerivedStatus, works.map withDerivedStatus, tasks.map withDerivedStatus)

/-- A whitespace character as JavaScript String.prototype.trim removes
(the characters that occur in this codebase are covered). -/
def jsWhitespace (c : Char) : Bool :=
  c = ' ' || c = '\t' || c = '\n' || c = '\r'

/-- Executable model of JavaScript `s.trim()`: strip leading and
trailing whitespace. -/
def jsTrim (s : String) : String :=
  String.mk (((s.data.dropWhile jsWhitespace).reverse.dropWhile jsWhitespace).reverse)

/-- Service-level `normalizeActualValue` (progress chunk lines 100-105):
keep `undefined`, keep `null`, trim a string and turn a blank into
`null`. -/
def normalizeActualValue : StrVal → StrVal
  | .undef => .undef
  | .null => .null
  | .str s => if jsTrim s = "" then .null else .str (jsTrim s)

/-- `updateEntity` (hierarchyRepository.ts lines 195-202) on one column:
an `undefined` entry is filtered out (column untouched), `null` is
written as SQL NULL, a string is written. -/
def applyCol (col : Option String) (v : StrVal) : Option String :=
  match v with
  | .undef => col
  | .null => none
  | .str s => some s

/-- The status part of `deriveStatusFromPatch` (progress chunk lines
107-121): for each actual-date field, a supplied patch value wins over
the current one, then the merged value is normalized and the status
derived. -/
def deriveStatusFromPatch (curStart curEnd : Option String) (ps pe : StrVal) : TodoStatus :=
  deriveStatusFromActual
    (normalizeActualValue (if ps = .undef then toStrVal curStart else ps))
    (normalizeActualValue (if pe = .undef then toStrVal curEnd else pe))

/-- The columns of a planning row touched by `updatePhase` (also
`updateWork`/`updateTask`, which are identical). -/
structure PhaseCols where
  title : String
  actualStart : Option String
  actualEnd : Option String
  status : TodoStatus
deriving DecidableEq, Repr

/-- A partial patch for a planning row: `title` is `string | undefined`,
the actual dates are `string | null | undefined`. -/
structure PhasePatch where
  title : Option String
  actualStart : StrVal
  actualEnd : StrVal
deriving DecidableEq, Repr

/-- `projectService.updatePhase` (progress chunk lines 287-299) followed
by `hierarchyRepository.updateEntity`: normalize the patched dates,
derive the next status, and write only the supplied columns (the derived
status is always written). -/
def updatePhaseService (row : PhaseCols) (patch : PhasePatch) : PhaseCols :=
  let nps := normalizeActualValue patch.actualStart
  let npe := normalizeActualValue patch.actualEnd
  { title := patch.title.getD row.title
    actualStart := applyCol row.actualStart nps
    actualEnd := applyCol row.actualEnd npe
    status := deriveStatusFromPatch row.actualStart row.actualEnd nps npe }

/-- The columns of a todo row touched by `updateTodo`. -/
structure TodoCols where
  title : String
  status : TodoStatus
  dueDate : Option String
  memo : Option String
  todayFlag : Bool
deriving DecidableEq, Repr

/-- A partial patch for a todo: every field optional, status freely
settable, never derived. -/
structure TodoPatch where
  title : Option String
  status : Option TodoStatus
  dueDate : StrVal
  memo : StrVal
  todayFlag : Option Bool
deriving DecidableEq, Repr

/-- `projectService.updateTodo` / `hierarchyRepository.updateTodo`
(repository lines 187-193): pass the patch through, writing only
supplied fields. -/
def updateTodoService (row : TodoCols) (patch : TodoPatch) : TodoCols :=
  { title := patch.title.getD row.title
    status := patch.status.getD row.status
    dueDate := applyCol row.dueDate patch.dueDate
    memo := applyCol row.memo patch.memo
    todayFlag := patch.todayFlag.getD row.todayFlag }

/-- A todo row as queried by `listTodayTodos`. -/
structure TodoRowQ where
  projectId : String
  assigneeId : String
  status : TodoStatus
  dueDate : Option String
  todayFlag : Bool
deriving DecidableEq, Repr

/-- `listTodayTodos` (hierarchyRepository.ts lines 212-228): WHERE
projectId matches, the optional filters match when supplied (a filter is
applied only when truthy, so an empty assignee string is ignored), and
`dueDate = date(now)`.  The stored `todayFlag` column is never
consulted. -/
def listTodayTodos (todos : List TodoRowQ) (projectId : String)
    (fAssignee : Option String) (fStatus : Option TodoStatus)
    (todayStr : String) : List TodoRowQ :=
  todos.filter (fun t =>
    t.projectId = projectId &&
    (match fAssignee with
      | some a => if a = "" then true else t.assigneeId = a
      | none => true) &&
    (match fStatus with
      | some st => t.status = st
      | none => true) &&
    t.dueDate = some todayStr)

/-- A todo that is flagged for today but due yesterday. -/
def flaggedTodo : TodoRowQ :=
  { projectId := "p", assigneeId := "u", status := .NOT_STARTED,
    dueDate := some "2026-10-11", todayFlag := true }

/-- One UPDATE of the reorder loop: set `orderIndex = idx` on every row
whose id matches. -/
def updateOrderRow (rows : List (String × ℤ)) (id : String) (idx : ℤ) :
    List (String × ℤ) :=
  rows.map (fun r => if r.1 = id then (r.1, idx) else r)

/-- The body of the transaction of `reorder` (hierarchyRepository.ts lines
204-210): `ids.forEach((id, idx) => update.run({id, orderIndex: idx}))`,
sequential updates starting at position `k`. -/
def applyReorder : List String → ℕ → List (String × ℤ) → List (String × ℤ)
  | [], _, rows => rows
  | id :: rest, k, rows => applyReorder rest (k + 1) (updateOrderRow rows id (k : ℤ))

/-- `reorder`: the transaction body over the whole id list. -/
def reorderTable (rows : List (String × ℤ)) (ids : List String) : List (String × ℤ) :=
  applyReorder ids 0 rows

/-- SQLite transaction semantics of `db.transaction(...)()`: the body
commits as a whole, or (on failure/interruption) rolls back leaving the
table untouched. -/
def runReorder (rows : List (String × ℤ)) (ids : List String)
    (committed : Bool) : List (String × ℤ) :=
  if committed then reorderTable rows ids else rows

/-- `SELECT COALESCE(MAX(orderIndex), -1)`: the SQL MAX over the order indexes
of the scope, `none` on an empty scope. -/
def sqlMaxOrder : List ℤ → Option ℤ
  | [] => none
  | x :: xs => some (match sqlMaxOrder xs with | none => x | some m => max x m)

/-- `getNextOrder` (hierarchyRepository.ts lines 8-13). -/
def getNextOrder (idxs : List ℤ) : ℤ :=
  (sqlMaxOrder idxs).getD (-1) + 1

/-- A create (`createPhase`/`createWork`/`createTask`/`createTodo`) adds
a sibling with the freshly allocated order index to the scope. -/
def createInScope (idxs : List ℤ) : List ℤ :=
  idxs ++ [getNextOrder idxs]

/-- One day in milliseconds (`DAY_MS` in the Gantt component). -/
def DAY_MS : ℤ := 86400000

/-- JavaScript truthiness of a parsed timestamp (`number | null`):
`null` and `0` are falsy. -/
def jsTruthyTime : Option ℤ → Bool
  | some t => t ≠ 0
  | none => false

/-- JavaScript nullish coalescing `o ?? d` on a timestamp: only `null`
falls back, a zero timestamp does not. -/
def nullishD (o : Option ℤ) (d : ℤ) : ℤ := o.getD d

/-- The end-date clamp used by `buildRows`:
`end ? Math.max(start ?? 0, end) : null`. -/
def clampedEnd (s e : Option ℤ) : Option ℤ :=
  if jsTruthyTime e then some (max (nullishD s 0) (e.getD 0)) else none

/-- The four parsed dates of a phase/work/task, plus its id. -/
structure ItemDates where
  id : String
  plannedStart : Option ℤ
  plannedEnd : Option ℤ
  actualStart : Option ℤ
  actualEnd : Option ℤ
deriving DecidableEq, Repr

/-- A Gantt row as produced by `buildRows` (src/unnamed/part_006 lines
42-112): starts kept as parsed, ends clamped. -/
structure GanttRow where
  id : String
  plannedStart : Option ℤ
  plannedEnd : Option ℤ
  actualStart : Option ℤ
  actualEnd : Option ℤ
deriving DecidableEq, Repr

def mkRow (it : ItemDates) : GanttRow :=
  { id := it.id
    plannedStart := it.plannedStart
    plannedEnd := clampedEnd it.plannedStart it.plannedEnd
    actualStart := it.actualStart
    actualEnd := clampedEnd it.actualStart it.actualEnd }

/-- A todo inside the Gantt tree: only its due date matters for
geometry. -/
structure TodoG where
  id : String
  dueDate : Option ℤ
deriving DecidableEq, Repr

structure TaskG where
  dates : ItemDates
  todos : List TodoG
deriving DecidableEq, Repr

structure WorkG where
  dates : ItemDates
  tasks : List TaskG
deriving DecidableEq, Repr

structure PhaseG where
  dates : ItemDates
  works : List WorkG
deriving DecidableEq, Repr

/-- A collapse-toggle record (`Record<string, boolean>`): the code tests
`record[id] === false`. -/
def collapsedIn (m : List (String × Bool)) (id : String) : Bool :=
  m.lookup id = some false

/-- `buildRows`: phases always appear; works of a phase only when the
phase is not collapsed; tasks of a work only when the work is not
collapsed. -/
def buildRows (phases : List PhaseG) (swp stw : List (String × Bool)) :
    List GanttRow :=
  (phases.map (fun ph =>
    mkRow ph.dates ::
      (if collapsedIn swp ph.dates.id then []
       else (ph.works.map (fun w =>
          mkRow w.dates ::
            (if collapsedIn stw w.dates.id then []
             else w.tasks.map (fun t => mkRow t.dates)))).flatten))).flatten

/-- The due-date markers (part_006 lines 131-154): todos of visible,
non-collapsed tasks whose parsed due date is truthy. -/
def todoMarkers (phases : List PhaseG) (swp stw std : List (String × Bool)) :
    List ℤ :=
  (phases.map (fun ph =>
    if collapsedIn swp ph.dates.id then []
    else (ph.works.map (fun w =>
      if collapsedIn stw w.dates.id then []
      else (w.tasks.map (fun t =>
        if collapsedIn std t.dates.id then []
        else t.todos.filterMap (fun td =>
          match td.dueDate with
          | some d => if d = 0 then none else some d
          | none => none))).flatten)).flatten)).flatten

/-- Running minimum update `min = Math.min(min, v)` starting from
Infinity, tracked as an optional value. -/
def updMin (m : Option ℤ) (v : ℤ) : Option ℤ :=
  some (match m with | none => v | some x => min x v)

/-- Running maximum update starting from -Infinity. -/
def updMax (m : Option ℤ) (v : ℤ) : Option ℤ :=
  some (match m with | none => v | some x => max x v)

/-- One iteration of the timeline-bounds scan (part_006 lines 165-174):
plannedStart lowers the minimum; a truthy actualStart lowers the minimum
and raises the maximum by `actualEnd ?? now`; plannedEnd and actualEnd
raise the maximum. -/
def scanStep (now : ℤ) (acc : Option ℤ × Option ℤ) (r : GanttRow) :
    Option ℤ × Option ℤ :=
  let a1 := if jsTruthyTime r.plannedStart then
      (updMin acc.1 (r.plannedStart.getD 0), acc.2) else acc
  let a2 := if jsTruthyTime r.actualStart then
      (updMin a1.1 (r.actualStart.getD 0), updMax a1.2 (nullishD r.actualEnd now))
    else a1
  let a3 := if jsTruthyTime r.plannedEnd then
      (a2.1, updMax a2.2 (r.plannedEnd.getD 0)) else a2
  if jsTruthyTime r.actualEnd then (a3.1, updMax a3.2 (r.actualEnd.getD 0)) else a3

/-- The marker part of the scan (part_006 lines 176-179): every due date
feeds both bounds. -/
def scanMarkers (acc : Option ℤ × Option ℤ) (ms : List ℤ) :
    Option ℤ × Option ℤ :=
  ms.foldl (fun a d => (updMin a.1 d, updMax a.2 d)) acc

/-- `setHours(0,0,0,0)`: snap a timestamp to the start of its day
(modelled in UTC as floor division by `DAY_MS`). -/
def floorDay (t : ℤ) : ℤ := DAY_MS * (t.fdiv DAY_MS)

/-- The timeline-bounds memo of part_006 (lines 159-204): empty row set
short-circuits to `now`; an empty minimum falls back to
`[now, now + 7 days]`; then pad 3 days before and 7 after and snap both
bounds to day starts.  The unreachable-in-practice case of a minimum
without a maximum (a NaN in JS) is `none`. -/
def timelineBounds (rows : List GanttRow) (markers : List ℤ) (now : ℤ) :
    Option (ℤ × ℤ) :=
  if rows = [] then some (now, now)
  else
    match scanMarkers (rows.foldl (scanStep now) (none, none)) markers with
    | (none, _) =>
        some (floorDay (now - 3 * DAY_MS), floorDay (now + 7 * DAY_MS + 7 * DAY_MS))
    | (some mn, some mx) =>
        some (floorDay (mn - 3 * DAY_MS), floorDay (mx + 7 * DAY_MS))
    | (some _, none) => none

/-- The bound derivation exactly as the claim words it: min and max over
all present planned/actual dates of visible rows and all visible due
dates, then pad 3 days / 7 days and snap to day starts. -/
def claimTimelineBounds (rows : List GanttRow) (markers : List ℤ) :
    Option (ℤ × ℤ) :=
  let cands := (rows.map (fun r =>
    r.plannedStart.toList ++ r.plannedEnd.toList ++
      r.actualStart.toList ++ r.actualEnd.toList)).flatten ++ markers
  match cands.min?, cands.max? with
  | some mn, some mx =>
      some (floorDay (mn - 3 * DAY_MS), floorDay (mx + 7 * DAY_MS))
  | _, _ => none

/-- The dates of one row the code feeds into the running minimum. -/
def rowMinCands (r : GanttRow) : List ℤ :=
  (if jsTruthyTime r.plannedStart then [r.plannedStart.getD 0] else []) ++
  (if jsTruthyTime r.actualStart then [r.actualStart.getD 0] else [])

/-- The dates of one row the code feeds into the running maximum: note
the `actualEnd ?? now` entry when the actual start is truthy. -/
def rowMaxCands (now : ℤ) (r : GanttRow) : List ℤ :=
  (if jsTruthyTime r.actualStart then [nullishD r.actualEnd now] else []) ++
  (if jsTruthyTime r.plannedEnd then [r.plannedEnd.getD 0] else []) ++
  (if jsTruthyTime r.actualEnd then [r.actualEnd.getD 0] else [])

/-- The candidates the code feeds into the running minimum. -/
def minCands (rows : List GanttRow) (markers : List ℤ) : List ℤ :=
  (rows.map rowMinCands).flatten ++ markers

/-- The candidates the code feeds into the running maximum. -/
def maxCands (rows : List GanttRow) (markers : List ℤ) (now : ℤ) : List ℤ :=
  (rows.map (rowMaxCands now)).flatten ++ markers

/-- The amended bound derivation: minimum over start-type candidates,
maximum over end-type candidates (including `now` for in-progress rows),
with the same fallback, padding and snapping as the code. -/
def amendedTimelineBounds (rows : List GanttRow) (markers : List ℤ)
    (now : ℤ) : Option (ℤ × ℤ) :=
  if rows = [] then some (now, now)
  else
    match (minCands rows markers).min?, (maxCands rows markers now).max? with
    | none, _ =>
        some (floorDay (now - 3 * DAY_MS), floorDay (now + 7 * DAY_MS + 7 * DAY_MS))
    | some mn, some mx =>
        some (floorDay (mn - 3 * DAY_MS), floorDay (mx + 7 * DAY_MS))
    | some _, none => none

/-- The actual-bar rectangle of a row (part_006 lines 362-404), as a pair
of timestamps: the bar exists iff `actualStart ?? actualEnd` is truthy;
its end is `max(actualEnd, start)` when actualEnd is truthy and
`max(today, start)` otherwise. -/
def actualBar (r : GanttRow) (now : ℤ) : Option (ℤ × ℤ) :=
  match (match r.actualStart with | some s => some s | none => r.actualEnd) with
  | none => none
  | some st =>
    if st = 0 then none
    else some (st,
      if jsTruthyTime r.actualEnd then max (r.actualEnd.getD 0) st
      else max now st)

/-- A phase whose single row is in progress: planned for days 10-11 with
an actual start on day 10 and no actual end. -/
def inProgressPhase : PhaseG :=
  { dates :=
      { id := "p", plannedStart := some (10 * DAY_MS),
        plannedEnd := some (11 * DAY_MS), actualStart := some (10 * DAY_MS),
        actualEnd := none }
    works := [] }

/-- A task with an actual start on day 200 and no actual end. -/
def futureStartItem : ItemDates :=
  { id := "t", plannedStart := none, plannedEnd := none,
    actualStart := some (200 * DAY_MS), actualEnd := none }

/-- A Gantt row that is in progress since day 1. -/
def inProgressRow : GanttRow :=
  { id := "r", plannedStart := none, plannedEnd := none,
    actualStart := some DAY_MS, actualEnd := none }

/-- A concrete stored phase row whose stored status has drifted (DONE on
record, but only an actual start date), used to instantiate claim
theorems. -/
def driftedRow : PlanRow :=
  { id := "p1", title := "phase", plannedStart := "2024-01-01",
    plannedEnd := "2024-01-31", actualStart := some "2024-01-02",
    actualEnd := none, memo := none, orderIndex := 0,
    status := TodoStatus.DONE }

/-- A phase row with both actual dates set and a stored status. -/
def startedPhaseRow : PhaseCols :=
  { title := "P", actualStart := some "2024-01-02",
    actualEnd := some "2024-01-05", status := .DONE }

/-- A patch clearing the actual end with an empty string and touching
nothing else. -/
def clearEndPatch : PhasePatch :=
  { title := none, actualStart := .undef, actualEnd := .str "" }

/-- A todo due exactly on the query day, not flagged. -/
def dueTodayTodo : TodoRowQ :=
  { projectId := "p", assigneeId := "u", status := .DONE,
    dueDate := some "2026-10-12", todayFlag := false }

/-- A three-row scope and a two-id reorder request used to instantiate
claim theorems. -/
def demoRows : List (String × ℤ) := [("a", 5), ("b", 7), ("c", 9)]

def demoIds : List String := ["c", "a"]

lemma sum_statusToProgressValue (l : List TodoStatus) :
    (l.map statusToProgressValue).sum = ((l.map weight2).sum : ℚ) / 2 := by
  induction l with
  | nil => simp
  | cons s t ih =>
      simp only [List.map_cons, List.sum_cons, ih, Nat.cast_add]
      cases s <;> simp [statusToProgressValue, weight2] <;> ring

/-- Executable form of `calculateProgressFromStatuses` on a non-empty
list: a single integer division. -/
lemma calcProgress_eq_div (l : List TodoStatus) (h : l ≠ []) :
    calculateProgressFromStatuses l =
      (100 * ((l.map weight2).sum : ℤ) + l.length) / ((2 * l.length : ℕ) : ℤ) := by
  have hn : (l.length : ℚ) ≠ 0 := by simpa using h
  have harg : (l.map statusToProgressValue).sum / l.length * 100 + 1/2 =
      ((100 * ((l.map weight2).sum : ℤ) + l.length : ℤ) : ℚ) / ((2 * l.length : ℕ) : ℚ) := by
    rw [sum_statusToProgressValue]
    generalize (l.map weight2).sum = T
    push_cast
    field_simp
    ring
  rw [calculateProgressFromStatuses, if_neg h, jsRound, harg,
    Rat.floor_intCast_div_natCast]

/-- Executable form of `combineProgress` on a non-empty list. -/
lemma combineProgress_eq_div (l : List ℤ) (h : l ≠ []) :
    combineProgress l = (2 * l.sum + l.length) / ((2 * l.length : ℕ) : ℤ) := by
  have hn : (l.length : ℚ) ≠ 0 := by simpa using h
  have harg : (l.sum : ℚ) / l.length + 1/2 =
      ((2 * l.sum + l.length : ℤ) : ℚ) / ((2 * l.length : ℕ) : ℚ) := by
    generalize l.sum = S
    push_cast
    field_simp
    ring
  rw [combineProgress, if_neg h, jsRound, harg, Rat.floor_intCast_div_natCast]

/-- Executable form of `progressFromStatus`. -/
lemma progressFromStatus_eq (s : TodoStatus) :
    progressFromStatus s = 50 * weight2 s := by
  cases s <;>
    · rw [progressFromStatus, jsRound]
      rw [Int.floor_eq_iff]
      constructor <;> norm_num [statusToProgressValue, weight2]

example : calculateProgressFromStatuses [] = 0 := by decide
example : calculateProgressFromStatuses [.DONE] = 100 :=
  (calcProgress_eq_div [.DONE] (by decide)).trans (by decide)
example : calculateProgressFromStatuses [.DONE, .NOT_STARTED] = 50 :=
  (calcProgress_eq_div _ (by decide)).trans (by decide)
example : calculateProgressFromStatuses [.IN_PROGRESS] = 50 :=
  (calcProgress_eq_div _ (by decide)).trans (by decide)
example : calculateProgressFromStatuses [.DONE, .DONE, .NOT_STARTED] = 67 :=
  (calcProgress_eq_div _ (by decide)).trans (by decide)
example : combineProgress [100, 0] = 50 :=
  (combineProgress_eq_div _ (by decide)).trans (by decide)
example : deriveStatusFromActual (.str "2024-01-01") .undef = .IN_PROGRESS := by decide

/-- C1: `deriveStatusFromActual` returns DONE iff actualEnd is present
(a truthy, i.e. non-empty, string); otherwise IN_PROGRESS iff actualStart
is present; otherwise NOT_STARTED — and the full 4-row truth table (both
absent, start only, end only, both present) matches, end-only yielding
DONE. -/
theorem c1_deriveStatus_truth_table (as ae : StrVal) :
    (deriveStatusFromActual as ae = .DONE ↔ ae.truthy = true) ∧
    (ae.truthy = false →
      (deriveStatusFromActual as ae = .IN_PROGRESS ↔ as.truthy = true)) ∧
    (ae.truthy = false → as.truthy = false →
      deriveStatusFromActual as ae = .NOT_STARTED) ∧
    (∀ s e : String, s ≠ "" → e ≠ "" →
      deriveStatusFromActual .undef .undef = .NOT_STARTED ∧
      deriveStatusFromActual (.str s) .undef = .IN_PROGRESS ∧
      deriveStatusFromActual .undef (.str e) = .DONE ∧
      deriveStatusFromActual (.str s) (.str e) = .DONE) := by
  refine ⟨?_, ?_, ?_, ?_⟩
  · cases hae : ae.truthy <;> cases has : as.truthy <;>
      simp [deriveStatusFromActual, hae, has]
  · intro hae
    cases has : as.truthy <;> simp [deriveStatusFromActual, hae, has]
  · intro hae has
    simp [deriveStatusFromActual, hae, has]
  · intro s e hs he
    simp [deriveStatusFromActual, StrVal.truthy, hs, he]

theorem c1_deriveStatus_truth_table_witness :
    deriveStatusFromActual (.str "2024-05-01") .undef = .IN_PROGRESS :=
  ((c1_deriveStatus_truth_table (.str "2024-05-01") .undef).2.1 (by decide)).mpr
    (by decide)

/-- C2: `calculateProgressFromStatuses` returns 0 on the empty list; on a
non-empty list it returns the integer nearest to the average weight
scaled to 0-100, halves rounding up (characterized by
`a - 1/2 < result ≤ a + 1/2`); and the four quoted examples hold. -/
theorem c2_progressFromChildStatuses (l : List TodoStatus) :
    calculateProgressFromStatuses [] = 0 ∧
    (l ≠ [] →
      ((l.map statusToProgressValue).sum / l.length * 100 : ℚ) - 1/2 <
          calculateProgressFromStatuses l ∧
      (calculateProgressFromStatuses l : ℚ) ≤
          (l.map statusToProgressValue).sum / l.length * 100 + 1/2) ∧
    calculateProgressFromStatuses [.DONE] = 100 ∧
    calculateProgressFromStatuses [.DONE, .NOT_STARTED] = 50 ∧
    calculateProgressFromStatuses [.IN_PROGRESS] = 50 := by
  refine ⟨by decide, ?_,
    (calcProgress_eq_div _ (by decide)).trans (by decide),
    (calcProgress_eq_div _ (by decide)).trans (by decide),
    (calcProgress_eq_div _ (by decide)).trans (by decide)⟩
  intro h
  have hE : calculateProgressFromStatuses l =
      ⌊(l.map statusToProgressValue).sum / l.length * 100 + 1/2⌋ := by
    rw [calculateProgressFromStatuses, if_neg h, jsRound]
  constructor
  · have h1 := Int.lt_floor_add_one
      ((l.map statusToProgressValue).sum / l.length * 100 + 1/2)
    rw [hE]
    push_cast at h1 ⊢
    linarith
  · have h2 := Int.floor_le
      ((l.map statusToProgressValue).sum / l.length * 100 + 1/2)
    rw [hE]
    push_cast at h2 ⊢
    linarith

theorem c2_progressFromChildStatuses_witness :
    (([TodoStatus.IN_PROGRESS].map statusToProgressValue).sum /
        ([TodoStatus.IN_PROGRESS] : List TodoStatus).length * 100 : ℚ) - 1/2 <
      calculateProgressFromStatuses [TodoStatus.IN_PROGRESS] :=
  ((c2_progressFromChildStatuses [TodoStatus.IN_PROGRESS]).2.1 (by decide)).1

/-- Concrete progress evaluations used by several claim proofs. -/
lemma calc_NS_eq : calculateProgressFromStatuses [.NOT_STARTED] = 0 :=
  (calcProgress_eq_div _ (by decide)).trans (by decide)

lemma calc_IP_eq : calculateProgressFromStatuses [.IN_PROGRESS] = 50 :=
  (calcProgress_eq_div _ (by decide)).trans (by decide)

lemma calc_DDN_eq : calculateProgressFromStatuses [.DONE, .DONE, .NOT_STARTED] = 67 :=
  (calcProgress_eq_div _ (by decide)).trans (by decide)

lemma combine_singleton_zero : combineProgress [(0 : ℤ)] = 0 :=
  (combineProgress_eq_div _ (by decide)).trans (by decide)

/-- C3 counterexample: a Task whose todos are [DONE, DONE, NOT_STARTED]
has progress 67, but a Work whose only child is that Task (the own derived status of the task being NOT_STARTED, e.g. no actual dates) has progress
`calculateProgressFromStatuses [NOT_STARTED] = 0`, not 67 — parent
progress uses the derived status of the child, not its progress, so
the 67 does not propagate upward as the claim asserts. -/
theorem c3_progress_rollup_counterexample :
    taskProgress ⟨.NOT_STARTED, [.DONE, .DONE, .NOT_STARTED]⟩ = 67 ∧
    workProgress ⟨.NOT_STARTED, [⟨.NOT_STARTED, [.DONE, .DONE, .NOT_STARTED]⟩]⟩ = 0 ∧
    phaseProgress
      ⟨.NOT_STARTED, [⟨.NOT_STARTED, [⟨.NOT_STARTED, [.DONE, .DONE, .NOT_STARTED]⟩]⟩]⟩ = 0 ∧
    projectProgress
      [⟨.NOT_STARTED, [⟨.NOT_STARTED, [⟨.NOT_STARTED, [.DONE, .DONE, .NOT_STARTED]⟩]⟩]⟩] = 0 ∧
    (0 : ℤ) ≠ 67 := by
  have hph : phaseProgress
      ⟨.NOT_STARTED, [⟨.NOT_STARTED, [⟨.NOT_STARTED, [.DONE, .DONE, .NOT_STARTED]⟩]⟩]⟩ = 0 := by
    simpa [phaseProgress, deriveProgressFromStatuses] using calc_NS_eq
  refine ⟨?_, ?_, hph, ?_, by decide⟩
  · simpa [taskProgress, deriveProgressFromStatuses] using calc_DDN_eq
  · simpa [workProgress, deriveProgressFromStatuses] using calc_NS_eq
  · simp [projectProgress, hph, combine_singleton_zero]

/-- C3 (amended): for every node, if it has at least one child its
progress is `calculateProgressFromStatuses` over the derived statuses of
its immediate children; if it has none, `progressFromStatus` of its own
status; project progress is `combineProgress` over phase progress
values.  In the [DONE, DONE, NOT_STARTED] scenario the Task progress
is 67, but the enclosing Work/Phase/Project see only the derived status
of the task: they have progress 0 when the chain statuses are NOT_STARTED
and 50 when the derived status of the task is IN_PROGRESS — never 67. -/
theorem c3_progress_rollup_amended (t : TaskT) (w : WorkT) (p : PhaseT)
    (phases : List PhaseT) :
    (t.todos ≠ [] → taskProgress t = calculateProgressFromStatuses t.todos) ∧
    (t.todos = [] → taskProgress t = progressFromStatus t.status) ∧
    (w.tasks ≠ [] →
      workProgress w = calculateProgressFromStatuses (w.tasks.map TaskT.status)) ∧
    (w.tasks = [] → workProgress w = progressFromStatus w.status) ∧
    (p.works ≠ [] →
      phaseProgress p = calculateProgressFromStatuses (p.works.map WorkT.status)) ∧
    (p.works = [] → phaseProgress p = progressFromStatus p.status) ∧
    projectProgress phases = combineProgress (phases.map phaseProgress) ∧
    taskProgress ⟨.NOT_STARTED, [.DONE, .DONE, .NOT_STARTED]⟩ = 67 ∧
    workProgress ⟨.IN_PROGRESS, [⟨.NOT_STARTED, [.DONE, .DONE, .NOT_STARTED]⟩]⟩ = 0 ∧
    workProgress ⟨.NOT_STARTED, [⟨.IN_PROGRESS, [.DONE, .DONE, .NOT_STARTED]⟩]⟩ = 50 := by
  refine ⟨?_, ?_, ?_, ?_, ?_, ?_, rfl, ?_, ?_, ?_⟩
  · intro h
    rw [taskProgress, deriveProgressFromStatuses, if_neg h]
  · intro h
    rw [taskProgress, deriveProgressFromStatuses, if_pos h]
  · intro h
    have h2 : w.tasks.map TaskT.status ≠ [] := by
      simpa using h
    rw [workProgress, deriveProgressFromStatuses, if_neg h2]
  · intro h
    rw [workProgress, deriveProgressFromStatuses, h]
    simp
  · intro h
    have h2 : p.works.map WorkT.status ≠ [] := by
      simpa using h
    rw [phaseProgress, deriveProgressFromStatuses, if_neg h2]
  · intro h
    rw [phaseProgress, deriveProgressFromStatuses, h]
    simp
  · simpa [taskProgress, deriveProgressFromStatuses] using calc_DDN_eq
  · simpa [workProgress, deriveProgressFromStatuses] using calc_NS_eq
  · simpa [workProgress, deriveProgressFromStatuses] using calc_IP_eq

theorem c3_progress_rollup_amended_witness :
    taskProgress ⟨.DONE, [.IN_PROGRESS]⟩ =
      calculateProgressFromStatuses [.IN_PROGRESS] :=
  (c3_progress_rollup_amended ⟨.DONE, [.IN_PROGRESS]⟩ ⟨.DONE, []⟩ ⟨.DONE, []⟩ []).1
    (by decide)

/-- C4: hierarchy assembly returns, for every Phase/Work/Task row, the
row with all persisted fields preserved and status recomputed by
`deriveStatusFromActual` from the stored actual dates; the stored status
column is never consulted, so any drifted stored status yields the same
returned node. -/
theorem c4_status_recomputed_on_read (phases works tasks : List PlanRow)
    (r : PlanRow) (s₀ : TodoStatus) :
    (withDerivedStatus r).status =
      deriveStatusFromActual (toStrVal r.actualStart) (toStrVal r.actualEnd) ∧
    (withDerivedStatus r).id = r.id ∧
    (withDerivedStatus r).title = r.title ∧
    (withDerivedStatus r).plannedStart = r.plannedStart ∧
    (withDerivedStatus r).plannedEnd = r.plannedEnd ∧
    (withDerivedStatus r).actualStart = r.actualStart ∧
    (withDerivedStatus r).actualEnd = r.actualEnd ∧
    (withDerivedStatus r).memo = r.memo ∧
    (withDerivedStatus r).orderIndex = r.orderIndex ∧
    withDerivedStatus { r with status := s₀ } = withDerivedStatus r ∧
    (∀ x ∈ (listHierarchyRows phases works tasks).1,
      ∃ r₀ ∈ phases, x = withDerivedStatus r₀) ∧
    (∀ x ∈ (listHierarchyRows phases works tasks).2.1,
      ∃ r₀ ∈ works, x = withDerivedStatus r₀) ∧
    (∀ x ∈ (listHierarchyRows phases works tasks).2.2,
      ∃ r₀ ∈ tasks, x = withDerivedStatus r₀) := by
  refine ⟨rfl, rfl, rfl, rfl, rfl, rfl, rfl, rfl, rfl, rfl, ?_, ?_, ?_⟩ <;>
    · intro x hx
      rw [listHierarchyRows] at hx
      simp only [List.mem_map] at hx
      obtain ⟨r₀, hr₀, hx⟩ := hx
      exact ⟨r₀, hr₀, hx.symm⟩

theorem c4_status_recomputed_on_read_witness :
    ∃ r₀ ∈ [driftedRow], withDerivedStatus driftedRow = withDerivedStatus r₀ :=
  (c4_status_recomputed_on_read [driftedRow] [] [] driftedRow .DONE).2.2.2.2.2.2.2.2.2.2.1
    _ (by simp [listHierarchyRows])

/-- C5: in a partial patch, an unsupplied field leaves the stored value
(and, for a todo, the stored status) unchanged; an actual-date field
supplied as an empty or whitespace-only string is stored as NULL and the
status is re-derived from the remaining dates (IN_PROGRESS when a
non-blank actual start remains, NOT_STARTED otherwise); and unsupplied,
cleared and set are three distinct outcomes on a column. -/
theorem c5_patch_semantics (row : PhaseCols) (patch : PhasePatch)
    (trow : TodoCols) (tpatch : TodoPatch) (s : String) :
    (patch.title = none → (updatePhaseService row patch).title = row.title) ∧
    (patch.actualStart = .undef →
      (updatePhaseService row patch).actualStart = row.actualStart) ∧
    (patch.actualEnd = .undef →
      (updatePhaseService row patch).actualEnd = row.actualEnd) ∧
    (tpatch.status = none → (updateTodoService trow tpatch).status = trow.status) ∧
    (patch.actualEnd = .str s → jsTrim s = "" → patch.actualStart = .undef →
      (updatePhaseService row patch).actualEnd = none ∧
      (updatePhaseService row patch).status =
        (match row.actualStart with
          | some t => if jsTrim t = "" then .NOT_STARTED else .IN_PROGRESS
          | none => .NOT_STARTED)) ∧
    (applyCol (some "2024-01-01") .undef = some "2024-01-01" ∧
      applyCol (some "2024-01-01") .null = none ∧
      applyCol (some "2024-01-01") (.str "2024-02-02") = some "2024-02-02") := by
  refine ⟨?_, ?_, ?_, ?_, ?_, by decide⟩
  · intro h
    simp [updatePhaseService, h]
  · intro h
    simp [updatePhaseService, h, normalizeActualValue, applyCol]
  · intro h
    simp [updatePhaseService, h, normalizeActualValue, applyCol]
  · intro h
    simp [updateTodoService, h]
  · intro hpe hs hps
    constructor
    · simp [updatePhaseService, hpe, hs, normalizeActualValue, applyCol]
    · simp only [updatePhaseService]
      rw [hpe, hps]
      simp only [normalizeActualValue, hs, if_pos]
      rw [deriveStatusFromPatch]
      cases hcs : row.actualStart with
      | none =>
          simp [toStrVal, normalizeActualValue, deriveStatusFromActual, StrVal.truthy]
      | some t =>
          by_cases ht : jsTrim t = "" <;>
            simp [toStrVal, normalizeActualValue, deriveStatusFromActual,
              StrVal.truthy, ht]

theorem c5_patch_semantics_witness :
    (updatePhaseService startedPhaseRow clearEndPatch).actualEnd = none ∧
    (updatePhaseService startedPhaseRow clearEndPatch).status =
      (match startedPhaseRow.actualStart with
        | some t => if jsTrim t = "" then .NOT_STARTED else .IN_PROGRESS
        | none => .NOT_STARTED) :=
  (c5_patch_semantics startedPhaseRow clearEndPatch
      { title := "t", status := .DONE, dueDate := none, memo := none, todayFlag := false }
      { title := none, status := none, dueDate := .undef, memo := .undef, todayFlag := none }
      "").2.2.2.2.1 rfl (by decide) rfl

/-- C6: the today-todos query in the code filters on
`dueDate = date(now)` only and never consults `todayFlag`: a todo whose
todayFlag is true but whose due date is not today is NOT returned,
although the spec promises it is; a todo due today is returned. -/
theorem c6_today_flag_ignored :
    flaggedTodo.todayFlag = true ∧
    flaggedTodo.dueDate ≠ some "2026-10-12" ∧
    listTodayTodos [flaggedTodo] "p" none none "2026-10-12" = [] ∧
    listTodayTodos [flaggedTodo, dueTodayTodo] "p" none none "2026-10-12" =
      [dueTodayTodo] := by
  refine ⟨rfl, by decide, by decide, by decide⟩

lemma mem_updateOrderRow_of_ne (rows : List (String × ℤ)) (id : String)
    (idx : ℤ) (r : String × ℤ) (hr : r ∈ rows) (hne : r.1 ≠ id) :
    r ∈ updateOrderRow rows id idx := by
  rw [updateOrderRow]
  exact List.mem_map.mpr ⟨r, hr, by simp [hne]⟩

lemma updateOrderRow_sets (rows : List (String × ℤ)) (id : String) (idx : ℤ) :
    ∀ r ∈ updateOrderRow rows id idx, r.1 = id → r.2 = idx := by
  intro r hrm hfst
  obtain ⟨r₀, hr₀, hmap⟩ := List.mem_map.mp hrm
  by_cases hc : r₀.1 = id
  · rw [if_pos hc] at hmap
    rw [← hmap]
  · rw [if_neg hc] at hmap
    rw [← hmap] at hfst
    exact absurd hfst hc

lemma applyReorder_mem_of_not_listed :
    ∀ (ids : List String) (k : ℕ) (rows : List (String × ℤ)) (r : String × ℤ),
      r ∈ rows → r.1 ∉ ids → r ∈ applyReorder ids k rows
  | [], _, _, _, hr, _ => by simpa [applyReorder] using hr
  | id :: rest, k, rows, r, hr, h => by
      rw [applyReorder]
      have hne : r.1 ≠ id := fun hh => h (by simp [hh])
      exact applyReorder_mem_of_not_listed rest (k + 1) (updateOrderRow rows id k) r
        (mem_updateOrderRow_of_ne rows id (k : ℤ) r hr hne)
        (fun hm => h (List.mem_cons_of_mem _ hm))

lemma applyReorder_preserves_val :
    ∀ (ids : List String) (k : ℕ) (rows : List (String × ℤ)) (id : String)
      (v : ℤ), id ∉ ids → (∀ r ∈ rows, r.1 = id → r.2 = v) →
      ∀ r ∈ applyReorder ids k rows, r.1 = id → r.2 = v
  | [], _, _, _, _, _, h => by simpa [applyReorder] using h
  | i :: rest, k, rows, id, v, hid, h => by
      rw [applyReorder]
      have hii : i ≠ id := fun hh => hid (by simp [hh])
      refine applyReorder_preserves_val rest (k + 1) (updateOrderRow rows i k) id v
        (fun hm => hid (List.mem_cons_of_mem _ hm)) ?_
      intro r hrm hfst
      obtain ⟨r₀, hr₀, hmap⟩ := List.mem_map.mp hrm
      by_cases hc : r₀.1 = i
      · rw [if_pos hc] at hmap
        rw [← hmap] at hfst
        have hrid : r₀.1 = id := hfst
        exact absurd (hc.symm.trans hrid) hii
      · rw [if_neg hc] at hmap
        rw [← hmap] at hfst ⊢
        exact h r₀ hr₀ hfst

lemma applyReorder_listed :
    ∀ (ids : List String), ids.Nodup → ∀ (k : ℕ) (rows : List (String × ℤ))
      (i : ℕ) (h : i < ids.length), ∀ r ∈ applyReorder ids k rows,
      r.1 = ids.get ⟨i, h⟩ → r.2 = ((k + i : ℕ) : ℤ)
  | [], _, _, _, i, h => absurd h (Nat.not_lt_zero i)
  | id :: rest, hnd, k, rows, 0, h => by
      intro r hr hfst
      rw [applyReorder] at hr
      have hid : id ∉ rest := (List.nodup_cons.mp hnd).1
      have hval := applyReorder_preserves_val rest (k + 1)
        (updateOrderRow rows id (k : ℤ)) id (k : ℤ) hid
        (updateOrderRow_sets rows id (k : ℤ)) r hr (by simpa using hfst)
      simpa using hval
  | id :: rest, hnd, k, rows, j + 1, h => by
      intro r hr hfst
      rw [applyReorder] at hr
      have hrest : rest.Nodup := (List.nodup_cons.mp hnd).2
      have := applyReorder_listed rest hrest (k + 1) (updateOrderRow rows id (k : ℤ))
        j (by simpa using h) r hr (by simpa using hfst)
      have harith : (k + 1) + j = k + (j + 1) := by omega
      rwa [harith] at this

/-- C7: `reorder` runs all its orderIndex updates inside one SQLite
transaction: the outcome is either the fully renumbered table (where,
for distinct ids, the row carrying the i-th id has orderIndex i, and
rows outside the id list are untouched) or, on rollback, exactly the
prior table — never a partial renumbering. -/
theorem c7_reorder_atomic (rows : List (String × ℤ)) (ids : List String)
    (committed : Bool) :
    runReorder rows ids false = rows ∧
    (runReorder rows ids committed = reorderTable rows ids ∨
      runReorder rows ids committed = rows) ∧
    (∀ r ∈ rows, r.1 ∉ ids → r ∈ reorderTable rows ids) ∧
    (ids.Nodup → ∀ (i : ℕ) (h : i < ids.length), ∀ r ∈ reorderTable rows ids,
      r.1 = ids.get ⟨i, h⟩ → r.2 = (i : ℤ)) := by
  refine ⟨rfl, ?_, ?_, ?_⟩
  · cases committed
    · exact Or.inr rfl
    · exact Or.inl rfl
  · intro r hr h
    exact applyReorder_mem_of_not_listed ids 0 rows r hr h
  · intro hnd i h r hr hfst
    have := applyReorder_listed ids hnd 0 rows i h r hr hfst
    simpa using this

theorem c7_reorder_atomic_witness :
    ("b", (7 : ℤ)) ∈ reorderTable demoRows demoIds ∧
    ("c", (0 : ℤ)).2 = ((0 : ℕ) : ℤ) ∧
    runReorder demoRows demoIds false = demoRows :=
  ⟨(c7_reorder_atomic demoRows demoIds true).2.2.1 ("b", 7) (by decide) (by decide),
   (c7_reorder_atomic demoRows demoIds true).2.2.2 (by decide) 0 (by decide)
     ("c", 0) (by decide) (by decide),
   (c7_reorder_atomic demoRows demoIds false).1⟩

lemma sqlMaxOrder_spec (l : List ℤ) (h : l ≠ []) :
    ∃ m, sqlMaxOrder l = some m ∧ m ∈ l ∧ ∀ x ∈ l, x ≤ m := by
  induction l with
  | nil => exact absurd rfl h
  | cons x xs ih =>
      by_cases hxs : xs = []
      · subst hxs
        exact ⟨x, by simp [sqlMaxOrder], by simp, by simp⟩
      · obtain ⟨m, hm, hmem, hle⟩ := ih hxs
        have hunfold : sqlMaxOrder (x :: xs) =
            some (match sqlMaxOrder xs with | none => x | some mm => max x mm) := rfl
        refine ⟨max x m, ?_, ?_, ?_⟩
        · rw [hunfold, hm]
        · rcases max_choice x m with hmx | hmx <;> rw [hmx]
          · exact List.mem_cons_self x xs
          · exact List.mem_cons_of_mem x hmem
        · intro z hz
          rcases List.mem_cons.mp hz with hzx | hzxs
          · rw [hzx]
            exact le_max_left x m
          · exact le_trans (hle z hzxs) (le_max_right x m)

/-- C10: creating an item allocates orderIndex `max of siblings + 1`,
0 on an empty scope; the fresh index is strictly above every existing
one, hence unused, and creation appends it at the end of the scope,
preserving orderIndex uniqueness. -/
theorem c10_create_order_allocation (idxs : List ℤ) :
    getNextOrder [] = 0 ∧
    (idxs ≠ [] → ∃ m ∈ idxs, (∀ x ∈ idxs, x ≤ m) ∧ getNextOrder idxs = m + 1) ∧
    (∀ x ∈ idxs, x < getNextOrder idxs) ∧
    getNextOrder idxs ∉ idxs ∧
    createInScope idxs = idxs ++ [getNextOrder idxs] ∧
    (idxs.Nodup → (createInScope idxs).Nodup) := by
  have hlt : ∀ x ∈ idxs, x < getNextOrder idxs := by
    intro x hx
    have hne : idxs ≠ [] := by
      intro h0
      rw [h0] at hx
      exact absurd hx (List.not_mem_nil x)
    obtain ⟨m, hm, -, hle⟩ := sqlMaxOrder_spec idxs hne
    rw [getNextOrder, hm]
    exact lt_of_le_of_lt (hle x hx) (by simp)
  have hnotmem : getNextOrder idxs ∉ idxs := by
    intro hmem
    exact absurd rfl (ne_of_lt (hlt _ hmem))
  refine ⟨by decide, ?_, hlt, hnotmem, rfl, ?_⟩
  · intro hne
    obtain ⟨m, hm, hmem, hle⟩ := sqlMaxOrder_spec idxs hne
    refine ⟨m, hmem, hle, ?_⟩
    rw [getNextOrder, hm]
    rfl
  · intro hnd
    rw [createInScope, List.nodup_append]
    exact ⟨hnd, List.nodup_singleton _,
      fun a ha hb => hnotmem (by rwa [List.mem_singleton.mp hb] at ha)⟩

theorem c10_create_order_allocation_witness :
    ∃ m ∈ [(0 : ℤ), 4, 2], (∀ x ∈ [(0 : ℤ), 4, 2], x ≤ m) ∧
      getNextOrder [(0 : ℤ), 4, 2] = m + 1 :=
  (c10_create_order_allocation [(0 : ℤ), 4, 2]).2.1 (by decide)

lemma foldl_updMin_some (l : List ℤ) (x : ℤ) :
    l.foldl updMin (some x) = some (l.foldl min x) := by
  induction l generalizing x with
  | nil => rfl
  | cons y ys ih =>
      simp only [List.foldl_cons]
      rw [show updMin (some x) y = some (min x y) from rfl]
      exact ih (min x y)

lemma foldl_updMin_none (l : List ℤ) : l.foldl updMin none = l.min? := by
  cases l with
  | nil => rfl
  | cons x xs =>
      simp only [List.foldl_cons]
      rw [show updMin none x = some x from rfl, foldl_updMin_some]
      rfl

lemma foldl_updMax_some (l : List ℤ) (x : ℤ) :
    l.foldl updMax (some x) = some (l.foldl max x) := by
  induction l generalizing x with
  | nil => rfl
  | cons y ys ih =>
      simp only [List.foldl_cons]
      rw [show updMax (some x) y = some (max x y) from rfl]
      exact ih (max x y)

lemma foldl_updMax_none (l : List ℤ) : l.foldl updMax none = l.max? := by
  cases l with
  | nil => rfl
  | cons x xs =>
      simp only [List.foldl_cons]
      rw [show updMax none x = some x from rfl, foldl_updMax_some]
      rfl

lemma scanStep_fst (now : ℤ) (acc : Option ℤ × Option ℤ) (r : GanttRow) :
    (scanStep now acc r).1 = (rowMinCands r).foldl updMin acc.1 := by
  by_cases h1 : jsTruthyTime r.plannedStart <;>
    by_cases h2 : jsTruthyTime r.actualStart <;>
      by_cases h3 : jsTruthyTime r.plannedEnd <;>
        by_cases h4 : jsTruthyTime r.actualEnd <;>
          simp [scanStep, rowMinCands, h1, h2, h3, h4]

lemma scanStep_snd (now : ℤ) (acc : Option ℤ × Option ℤ) (r : GanttRow) :
    (scanStep now acc r).2 = (rowMaxCands now r).foldl updMax acc.2 := by
  by_cases h1 : jsTruthyTime r.plannedStart <;>
    by_cases h2 : jsTruthyTime r.actualStart <;>
      by_cases h3 : jsTruthyTime r.plannedEnd <;>
        by_cases h4 : jsTruthyTime r.actualEnd <;>
          simp [scanStep, rowMaxCands, h1, h2, h3, h4]

lemma scanRows_fst (now : ℤ) (rows : List GanttRow) (acc : Option ℤ × Option ℤ) :
    (rows.foldl (scanStep now) acc).1 =
      ((rows.map rowMinCands).flatten).foldl updMin acc.1 := by
  induction rows generalizing acc with
  | nil => rfl
  | cons r rs ih =>
      simp only [List.foldl_cons, List.map_cons, List.flatten_cons, List.foldl_append]
      rw [ih (scanStep now acc r), scanStep_fst]

lemma scanRows_snd (now : ℤ) (rows : List GanttRow) (acc : Option ℤ × Option ℤ) :
    (rows.foldl (scanStep now) acc).2 =
      ((rows.map (rowMaxCands now)).flatten).foldl updMax acc.2 := by
  induction rows generalizing acc with
  | nil => rfl
  | cons r rs ih =>
      simp only [List.foldl_cons, List.map_cons, List.flatten_cons, List.foldl_append]
      rw [ih (scanStep now acc r), scanStep_snd]

lemma scanMarkers_fst (acc : Option ℤ × Option ℤ) (ms : List ℤ) :
    (scanMarkers acc ms).1 = ms.foldl updMin acc.1 := by
  induction ms generalizing acc with
  | nil => rfl
  | cons m ms ih =>
      simp only [scanMarkers, List.foldl_cons] at ih ⊢
      rw [ih]

lemma scanMarkers_snd (acc : Option ℤ × Option ℤ) (ms : List ℤ) :
    (scanMarkers acc ms).2 = ms.foldl updMax acc.2 := by
  induction ms generalizing acc with
  | nil => rfl
  | cons m ms ih =>
      simp only [scanMarkers, List.foldl_cons] at ih ⊢
      rw [ih]

lemma scan_fst_eq_min (now : ℤ) (rows : List GanttRow) (markers : List ℤ) :
    (scanMarkers (rows.foldl (scanStep now) (none, none)) markers).1 =
      (minCands rows markers).min? := by
  rw [scanMarkers_fst, scanRows_fst, ← List.foldl_append, foldl_updMin_none]
  rfl

lemma scan_snd_eq_max (now : ℤ) (rows : List GanttRow) (markers : List ℤ) :
    (scanMarkers (rows.foldl (scanStep now) (none, none)) markers).2 =
      (maxCands rows markers now).max? := by
  rw [scanMarkers_snd, scanRows_snd, ← List.foldl_append, foldl_updMax_none]
  rfl

/-- C8 counterexample: a single in-progress phase (planned days 10-11,
actual start day 10, no actual end, no due dates) seen on day 100.  The
code includes `now` in the maximum via `actualEnd ?? now`, producing the
bounds [day 7, day 107]; the claim, taking the min and max of the
planned/actual dates and due dates only, yields [day 7, day 18]. -/
theorem c8_timeline_bounds_counterexample :
    timelineBounds (buildRows [inProgressPhase] [] [])
        (todoMarkers [inProgressPhase] [] [] []) (100 * DAY_MS) =
      some (7 * DAY_MS, 107 * DAY_MS) ∧
    claimTimelineBounds (buildRows [inProgressPhase] [] [])
        (todoMarkers [inProgressPhase] [] [] []) =
      some (7 * DAY_MS, 18 * DAY_MS) ∧
    ¬(some ((7 : ℤ) * DAY_MS, (107 : ℤ) * DAY_MS) =
        some ((7 : ℤ) * DAY_MS, (18 : ℤ) * DAY_MS)) := by
  refine ⟨by decide, by decide, by decide⟩

/-- C8 (amended): the timeline bounds equal, for every visible row set,
marker set and current time, the padded and day-snapped interval from
the minimum of the start-type candidates (truthy planned/actual starts
of visible rows and visible due dates) and the maximum of the end-type
candidates (truthy planned/actual ends, visible due dates, and
`actualEnd ?? now` for every row with a truthy actual start); rows and
markers under a collapsed parent are excluded, as `buildRows` and
`todoMarkers` build only the visible ones. -/
theorem c8_timeline_bounds_amended (rows : List GanttRow) (markers : List ℤ)
    (now : ℤ) (phases : List PhaseG) (swp stw std : List (String × Bool)) :
    timelineBounds rows markers now = amendedTimelineBounds rows markers now ∧
    timelineBounds (buildRows phases swp stw) (todoMarkers phases swp stw std) now =
      amendedTimelineBounds (buildRows phases swp stw)
        (todoMarkers phases swp stw std) now := by
  have hgen : ∀ (rs : List GanttRow) (ms : List ℤ),
      timelineBounds rs ms now = amendedTimelineBounds rs ms now := by
    intro rs ms
    by_cases hrs : rs = []
    · simp [timelineBounds, amendedTimelineBounds, hrs]
    · rw [timelineBounds, amendedTimelineBounds, if_neg hrs, if_neg hrs]
      have hpair : scanMarkers (rs.foldl (scanStep now) (none, none)) ms =
          ((minCands rs ms).min?, (maxCands rs ms now).max?) := by
        rw [Prod.ext_iff]
        exact ⟨scan_fst_eq_min now rs ms, scan_snd_eq_max now rs ms⟩
      rw [hpair]
      cases (minCands rs ms).min? with
      | none => rfl
      | some mn =>
          cases (maxCands rs ms now).max? with
          | none => rfl
          | some mx => rfl
  exact ⟨hgen rows markers, hgen _ _⟩

/-- C9 counterexample: a visible row with actual start on day 200, no
actual end, seen on day 100 ("now").  The code draws the bar end at
`max(now, start) = day 200`, not at the current day 100 as the claim
states. -/
theorem c9_actual_bar_counterexample :
    buildRows [(⟨futureStartItem, []⟩ : PhaseG)] [] [] = [mkRow futureStartItem] ∧
    actualBar (mkRow futureStartItem) (100 * DAY_MS) =
      some (200 * DAY_MS, 200 * DAY_MS) ∧
    (200 * DAY_MS : ℤ) ≠ 100 * DAY_MS := by
  refine ⟨by decide, by decide, by decide⟩

/-- C9 (amended): a row with a truthy actual start always gets an
actual bar starting at that date; the bar end is
`max(actualEnd, actualStart)` when the actual end is truthy — which for
a row built by `buildRows` is exactly the row actual end, already
clamped — and `max(now, actualStart)` otherwise, so an in-progress row
whose actual start is not in the future extends to the current day
rather than being suppressed. -/
theorem c9_actual_bar_amended (r : GanttRow) (now : ℤ) (it : ItemDates) :
    (jsTruthyTime r.actualStart = true →
      actualBar r now = some (r.actualStart.getD 0,
        if jsTruthyTime r.actualEnd then
          max (r.actualEnd.getD 0) (r.actualStart.getD 0)
        else max now (r.actualStart.getD 0))) ∧
    (jsTruthyTime (mkRow it).actualStart = true →
      jsTruthyTime (mkRow it).actualEnd = true →
      actualBar (mkRow it) now =
        some ((mkRow it).actualStart.getD 0, (mkRow it).actualEnd.getD 0)) ∧
    (jsTruthyTime r.actualStart = true → r.actualEnd = none →
      r.actualStart.getD 0 ≤ now →
      actualBar r now = some (r.actualStart.getD 0, now)) := by
  have hbar : ∀ (rr : GanttRow), jsTruthyTime rr.actualStart = true →
      actualBar rr now = some (rr.actualStart.getD 0,
        if jsTruthyTime rr.actualEnd then
          max (rr.actualEnd.getD 0) (rr.actualStart.getD 0)
        else max now (rr.actualStart.getD 0)) := by
    intro rr htr
    cases hra : rr.actualStart with
    | none => rw [hra] at htr; exact absurd htr (by simp [jsTruthyTime])
    | some s =>
        rw [hra] at htr
        have hs : ¬(s = 0) := by simpa [jsTruthyTime] using htr
        rw [actualBar, hra]
        simp only [if_neg hs, hra, Option.getD_some]
  refine ⟨hbar r, ?_, ?_⟩
  · intro hts hte
    rw [hbar (mkRow it) hts, if_pos hte]
    cases hia : it.actualStart with
    | none =>
        exact absurd hts (by simp [mkRow, hia, jsTruthyTime])
    | some s =>
        cases hie : it.actualEnd with
        | none =>
            exact absurd hte (by simp [mkRow, hie, clampedEnd, jsTruthyTime])
        | some e =>
            by_cases he : jsTruthyTime (some e)
            · have hrow : (mkRow it).actualEnd = some (max (nullishD (some s) 0) e) := by
                simp [mkRow, hie, hia, clampedEnd, he]
              have hstart : (mkRow it).actualStart = some s := by
                simp [mkRow, hia]
              rw [hrow, hstart]
              simp only [Option.getD_some, nullishD, Option.getD_some]
              rw [max_eq_left]
              exact le_max_left s e
            · have he0 : e = 0 := by simpa [jsTruthyTime] using he
              exact absurd hte (by simp [mkRow, hie, clampedEnd, jsTruthyTime, he0])
  · intro hts hend hle
    rw [hbar r hts, hend]
    simp only [jsTruthyTime, if_neg (by simp : ¬(false = true))]
    rw [max_eq_left hle]

theorem c9_actual_bar_amended_witness :
    actualBar inProgressRow (2 * DAY_MS) =
      some (inProgressRow.actualStart.getD 0, 2 * DAY_MS) :=
  (c9_actual_bar_amended inProgressRow (2 * DAY_MS) futureStartItem).2.2
    (by decide) rfl (by decide)
